import Mathlib

/-!
# Verification of `check_flp.py` (Retro_Floppy)

A shallow embedding of the floppy-rescue engine in `src/check_flp.py`:
the multi-pass track scanner (`multi_pass_rescue`), the track health
classifier, the health-score computation (including its double-precision
floating-point arithmetic, modelled exactly over `ℚ`), the comment
sanitizer, the boot-sector metadata reader, the MD5-based archive
fingerprint, and the archive-finalization control flow.

Machine bytes are `Nat` values; buffers are functions `Nat → Nat`
(byte index to value), updated by slice writes exactly where the Python
code assigns `master_bin[offset:offset+TRACK_SIZE] = data`.
-/

namespace CheckFlp

/-! ## Geometry constants (from `multi_pass_rescue`) -/

def TRACKS : Nat := 80
def HEADS : Nat := 2
def SECTORS_PER_TRACK : Nat := 18
def SECTOR_SIZE : Nat := 512
def TRACK_SIZE : Nat := SECTORS_PER_TRACK * SECTOR_SIZE
def TOTAL_SIZE : Nat := 1474560
def TOTAL_TRACK_HEADS : Nat := TRACKS * HEADS

/-- Linear unit index of track `t`, head `h`: `t * HEADS + h`. -/
def unitIdx (t h : Nat) : Nat := t * HEADS + h

/-- Byte offset of unit `(t, h)` in the master image:
`(t * HEADS + h) * TRACK_SIZE`. -/
def unitOffset (t h : Nat) : Nat := unitIdx t h * TRACK_SIZE

/-! ## Scanner state

`master` models the `master_bin` bytearray (zero-initialised, length
`TOTAL_SIZE`); `results` models `track_results[t][h]`, the per-unit list
of booleans; `opsDone` models `ops_done`; `divisors` records, in order,
the value of `ops_done` at each evaluation of
`avg_time_per_op = elapsed_sec / ops_done`. -/

structure ScanState where
  master : Nat → Nat
  results : Nat → Nat → List Bool
  opsDone : Nat
  divisors : List Nat

def initState : ScanState :=
  { master := fun _ => 0
    results := fun _ _ => []
    opsDone := 0
    divisors := [] }

/-- The outcome of one read attempt on one unit in one pass: `some d`
when `f.read(TRACK_SIZE)` returned exactly `TRACK_SIZE` bytes with byte
`j` equal to `d j`; `none` for a short read or an I/O exception. -/
def Outcome : Type := Option (Nat → Nat)

/-- Slice assignment `m[off : off + TRACK_SIZE] = d`. -/
def writeSlice (m : Nat → Nat) (off : Nat) (d : Nat → Nat) : Nat → Nat :=
  fun i => if off ≤ i ∧ i < off + TRACK_SIZE then d (i - off) else m i

/-- Pointwise update of the per-unit results table at `(t, h)`. -/
def updRes (f : Nat → Nat → List Bool) (t h : Nat) (l : List Bool) :
    Nat → Nat → List Bool :=
  fun t' h' => if t' = t ∧ h' = h then l else f t' h'

/-- One iteration of the inner scan loop for unit `(t, h)`:
increment `ops_done` (recording the divisor used by the progress
estimator), then attempt the read; on success append `True` and, if this
is the first success (`sum(track_results[t][h]) == 1` after the append),
copy the data into the master buffer; on failure append `False`. -/
def scanUnit (o : Outcome) (t h : Nat) (st : ScanState) : ScanState :=
  match o with
  | none =>
      { master := st.master
        results := updRes st.results t h (st.results t h ++ [false])
        opsDone := st.opsDone + 1
        divisors := st.divisors ++ [st.opsDone + 1] }
  | some d =>
      if (st.results t h ++ [true]).count true = 1 then
        { master := writeSlice st.master (unitOffset t h) d
          results := updRes st.results t h (st.results t h ++ [true])
          opsDone := st.opsDone + 1
          divisors := st.divisors ++ [st.opsDone + 1] }
      else
        { master := st.master
          results := updRes st.results t h (st.results t h ++ [true])
          opsDone := st.opsDone + 1
          divisors := st.divisors ++ [st.opsDone + 1] }

/-- The units in scan order: `for t in range(TRACKS): for h in range(HEADS)`. -/
def unitsList : List (Nat × Nat) :=
  (List.range TRACKS).flatMap fun t => (List.range HEADS).map fun h => (t, h)

/-- One full pass over all units, `outs t h` giving that unit's read
outcome in this pass. -/
def runPass (outs : Nat → Nat → Outcome) (st : ScanState) : ScanState :=
  unitsList.foldl (fun st u => scanUnit (outs u.1 u.2) u.1 u.2 st) st

/-- The scan after `n` passes, `outcomes p t h` giving unit `(t, h)`'s
read outcome in (0-based) pass `p`.  Pass `p` of the source's
`for p in range(1, PASSES + 1)` loop is pass `p - 1` here. -/
def scanRun (outcomes : Nat → Nat → Nat → Outcome) : Nat → ScanState
  | 0 => initState
  | n + 1 => runPass (outcomes n) (scanRun outcomes n)

/-- The first successful read outcome among passes `0 .. n-1`
(earliest pass wins). -/
def firstRead (outs : Nat → Outcome) : Nat → Outcome
  | 0 => none
  | n + 1 =>
      match firstRead outs n with
      | some d => some d
      | none => outs n

/-! ## Track health classification (analysis phase) -/

/-- The three classifications `"STABLE_OK"`, `"STABLE_BAD"`, `"UNSTABLE"`. -/
inductive Status where
  | stableOk : Status
  | stableBad : Status
  | unstable : Status
deriving DecidableEq, Repr

/-- Classification of one unit from its success count `s` and the pass
count `n`: `if successes == PASSES ... elif successes == 0 ... else ...`. -/
def classify (s n : Nat) : Status :=
  if s = n then .stableOk else if s = 0 then .stableBad else .unstable

/-- Zero-padded two-digit rendering of `{t:02d}` (valid for `t < 100`). -/
def pad2 (n : Nat) : String :=
  if n < 10 then "0" ++ toString n else toString n

/-- The coordinate string `f"T:{t:02d} H:{h}"`. -/
def fmtTH (t h : Nat) : String :=
  "T:" ++ pad2 t ++ " H:" ++ toString h

/-- The unstable-spot entry `f"T:{t:02d} H:{h} ({successes}/{PASSES})"`. -/
def unstableEntry (t h s n : Nat) : String :=
  fmtTH t h ++ " (" ++ toString s ++ "/" ++ toString n ++ ")"

/-- Accumulator of the analysis loop: `final_status_map`,
`report["stable_bad_spots"]` and `report["unstable_spots"]`. -/
structure Analysis where
  statusMap : List Status
  stableBadSpots : List String
  unstableSpots : List String
deriving DecidableEq, Repr

/-- One iteration of the analysis loop for unit `u`. -/
def analyzeStep (npasses : Nat) (res : Nat → Nat → List Bool)
    (a : Analysis) (u : Nat × Nat) : Analysis :=
  let s := (res u.1 u.2).count true
  match classify s npasses with
  | .stableOk => { a with statusMap := a.statusMap ++ [.stableOk] }
  | .stableBad =>
      { a with
        statusMap := a.statusMap ++ [.stableBad]
        stableBadSpots := a.stableBadSpots ++ [fmtTH u.1 u.2] }
  | .unstable =>
      { a with
        statusMap := a.statusMap ++ [.unstable]
        unstableSpots := a.unstableSpots ++ [unstableEntry u.1 u.2 s npasses] }

/-- The full analysis loop over all units in order. -/
def analyze (res : Nat → Nat → List Bool) (npasses : Nat) : Analysis :=
  unitsList.foldl (analyzeStep npasses res) ⟨[], [], []⟩

/-- `salvaged_count = sum(1 for s in final_status_map if s != "STABLE_BAD")`. -/
def salvagedCount (m : List Status) : Nat :=
  m.countP (fun s => decide (s ≠ .stableBad))

/-! ## IEEE-754 binary64 model of the health-score arithmetic

`health_score = int(round((salvaged_count / float(TOTAL_TRACK_HEADS)) * 100))`
performs two double-precision operations (`/`, then `*`) followed by
Python's `round` (round-half-to-even).  A nonnegative double is modelled
exactly as `m * 2 ^ e` with an integer mantissa `m` (`2^52 ≤ m ≤ 2^53`
for nonzero normal values) and exponent `e`; `roundFrac` is IEEE
round-to-nearest, ties-to-even, of an exact fraction, valid for all
positive normal magnitudes (binary exponent strictly between `-1104` and
`1104`), which covers every value arising in the health-score pipeline. -/

/-- Rounded integer division `a / b` to the nearest integer with ties to
even (`b ≠ 0`). -/
def halfEvenDiv (a b : Nat) : Nat :=
  let q := a / b
  let r := a % b
  if 2 * r < b then q
  else if b < 2 * r then q + 1
  else if q % 2 = 0 then q else q + 1

/-- Whether `2 ^ e ≤ a / b` for naturals `a, b > 0` and integer `e`. -/
def le2pow (e : Int) (a b : Nat) : Bool :=
  if 0 ≤ e then decide (b * 2 ^ e.toNat ≤ a) else decide (b ≤ a * 2 ^ (-e).toNat)

/-- Binary search for the largest exponent `e` in `[lo, hi)` with
`2 ^ e ≤ a / b`, maintaining `le2pow lo a b = true` and
`le2pow hi a b = false`. -/
def expSearch : Nat → Int → Int → Nat → Nat → Int
  | 0, lo, _, _, _ => lo
  | fuel + 1, lo, hi, a, b =>
      if hi ≤ lo + 1 then lo
      else
        let mid := (lo + hi) / 2
        if le2pow mid a b then expSearch fuel mid hi a b
        else expSearch fuel lo mid a b

/-- The binary exponent of `a / b` (for positive `a, b` with the exponent
in the binary64 normal range): the unique `e` with
`2 ^ e ≤ a / b < 2 ^ (e + 1)`. -/
def expOf (a b : Nat) : Int := expSearch 16 (-1104) 1104 a b

/-- An exactly-represented nonnegative binary64 value `m * 2 ^ e`. -/
structure F64 where
  m : Nat
  e : Int
deriving DecidableEq, Repr

/-- Round the exact fraction `a / b` (`b ≠ 0`) to the nearest binary64
value, ties to even: the 53-bit mantissa is the half-even rounding of
`(a / b) * 2 ^ (52 - expOf a b)`. -/
def roundFrac (a b : Nat) : F64 :=
  if a = 0 then ⟨0, 0⟩
  else
    let n := expOf a b
    let s : Int := 52 - n
    let m :=
      if 0 ≤ s then halfEvenDiv (a * 2 ^ s.toNat) b
      else halfEvenDiv a (b * 2 ^ (-s).toNat)
    ⟨m, n - 52⟩

/-- IEEE binary64 multiplication of a double by an exact small natural:
round the exact product. -/
def f64MulNat (x : F64) (k : Nat) : F64 :=
  if 0 ≤ x.e then roundFrac (x.m * k * 2 ^ x.e.toNat) 1
  else roundFrac (x.m * k) (2 ^ (-x.e).toNat)

/-- Python 3 `round` on a nonnegative float value `m * 2 ^ e`: nearest
integer, ties to even. -/
def f64Round (x : F64) : Nat :=
  if 0 ≤ x.e then x.m * 2 ^ x.e.toNat else halfEvenDiv x.m (2 ^ (-x.e).toNat)

/-- `int(round((salvaged / float(TOTAL_TRACK_HEADS)) * 100))` with exact
binary64 semantics for the division and the multiplication. -/
def health_score (salvaged : Nat) : Int :=
  (f64Round (f64MulNat (roundFrac salvaged TOTAL_TRACK_HEADS) 100) : Int)

/-- Rounding (half to even, Python's `round`) of the exact rational
`a / b` — the idealised arithmetic the specification's formula
`round(100 * (160 - stableBadCount) / 160)` denotes. -/
def claimRound (a b : Nat) : Int := (halfEvenDiv a b : Int)

/-! ## Comment sanitizer (`_sanitize_comment`) -/

/-- Python `str.strip()` whitespace, for the characters relevant here:
ASCII whitespace and the common Unicode space characters. -/
def pyIsSpace (c : Char) : Bool :=
  c = ' ' || c = '\t' || c = '\n' || c = '\x0d' ||
  c.toNat = 0x0b || c.toNat = 0x0c ||
  (0x1c ≤ c.toNat && c.toNat ≤ 0x1f) ||
  c.toNat = 0x85 || c.toNat = 0xa0 ||
  (0x2000 ≤ c.toNat && c.toNat ≤ 0x200a) ||
  c.toNat = 0x2028 || c.toNat = 0x2029 || c.toNat = 0x202f ||
  c.toNat = 0x205f || c.toNat = 0x3000

/-- Python `str.isalnum()`: true for Unicode alphanumeric characters.
Modelled for ASCII alphanumerics together with the Latin-1 Supplement
and Latin Extended-A letters (U+00C0–U+017F except `×` and `÷`), a
strict under-approximation of the full Unicode predicate that agrees
with it on every character this development evaluates. -/
def pyIsAlnum (c : Char) : Bool :=
  c.isAlphanum ||
  (0xC0 ≤ c.toNat && c.toNat ≤ 0x17F && c.toNat ≠ 0xD7 && c.toNat ≠ 0xF7)

/-- Remove the characters satisfying `p` from both ends of a list
(Python `str.strip` / `str.strip("_")`). -/
def stripEnds (p : Char → Bool) (l : List Char) : List Char :=
  ((l.dropWhile p).reverse.dropWhile p).reverse

/-- Python `str.strip()` on a string. -/
def pyStrip (s : String) : String := String.mk (stripEnds pyIsSpace s.data)

/-- `_sanitize_comment`: strip the (possibly absent) comment; if empty,
`"NOCOMM"`; otherwise keep alphanumerics, `-` and `_`, replace every
other character by `_`, strip leading/trailing `_`, fall back to
`"NOCOMM"` if nothing is left, and truncate to 32 characters. -/
def sanitizeComment (comment : Option String) : String :=
  let c := pyStrip (comment.getD "")
  if c = "" then "NOCOMM"
  else
    let safe := c.data.map fun ch =>
      if pyIsAlnum ch || ch = '-' || ch = '_' then ch else '_'
    let cleaned := stripEnds (fun ch => ch = '_') safe
    String.mk ((if cleaned.isEmpty then "NOCOMM".data else cleaned).take 32)

/-! ## Boot-sector metadata (`multi_pass_rescue`, step 1) -/

/-- Uppercase hexadecimal digit for `n < 16`. -/
def hexDigitU (n : Nat) : Char :=
  if n < 10 then Char.ofNat (48 + n) else Char.ofNat (55 + n)

/-- `f"{sn:08X}"`: eight uppercase hex digits of `sn < 2^32`. -/
def hex8 (sn : Nat) : String :=
  String.mk ((List.range 8).map fun k => hexDigitU (sn / 16 ^ (7 - k) % 16))

/-- `struct.unpack("<I", ...)`: little-endian 32-bit value of 4 bytes. -/
def leU32 (b0 b1 b2 b3 : Nat) : Nat :=
  b0 + 256 * b1 + 65536 * b2 + 16777216 * b3

/-- `bytes.decode('ascii', errors='ignore')`: bytes `< 0x80` decode to
their characters, all other bytes are silently dropped. -/
def decodeAsciiIgnore (bs : List Nat) : List Char :=
  bs.filterMap fun b => if b < 128 then some (Char.ofNat b) else none

/-- The metadata-extraction step: given the bytes returned by
`f.read(512)`, produce `(serial, label)`, defaulting to
`("UNKNOWN", "NO_LABEL")`.  Only a read of exactly 512 bytes updates the
fields; the serial is the little-endian 32-bit integer at offset 39 in
8 uppercase hex digits, the label the stripped ASCII decode (ignoring
non-ASCII bytes) of the 11 bytes at offset 43, kept only if nonempty. -/
def bootMetadata (boot : List Nat) : String × String :=
  if boot.length = 512 then
    let sn := leU32 (boot.getD 39 0) (boot.getD 40 0) (boot.getD 41 0) (boot.getD 42 0)
    let label := String.mk (stripEnds pyIsSpace (decodeAsciiIgnore ((boot.drop 43).take 11)))
    (hex8 sn, if label = "" then "NO_LABEL" else label)
  else ("UNKNOWN", "NO_LABEL")

/-! ## MD5 (RFC 1321) and the archive fingerprint

`hashlib.md5(master_bin).hexdigest()` and
`md5_part = f"{md5_hash[:4]}{md5_hash[-4:]}".upper()`. -/

/-- The 64 MD5 sine-derived constants `⌊2^32 * |sin(i + 1)|⌋`. -/
def md5K : List Nat :=
  [3614090360, 3905402710, 606105819, 3250441966, 4118548399, 1200080426, 2821735955, 4249261313,
   1770035416, 2336552879, 4294925233, 2304563134, 1804603682, 4254626195, 2792965006, 1236535329,
   4129170786, 3225465664, 643717713, 3921069994, 3593408605, 38016083, 3634488961, 3889429448,
   568446438, 3275163606, 4107603335, 1163531501, 2850285829, 4243563512, 1735328473, 2368359562,
   4294588738, 2272392833, 1839030562, 4259657740, 2763975236, 1272893353, 4139469664, 3200236656,
   681279174, 3936430074, 3572445317, 76029189, 3654602809, 3873151461, 530742520, 3299628645,
   4096336452, 1126891415, 2878612391, 4237533241, 1700485571, 2399980690, 4293915773, 2240044497,
   1873313359, 4264355552, 2734768916, 1309151649, 4149444226, 3174756917, 718787259, 3951481745]

/-- The 64 MD5 per-round left-rotation amounts. -/
def md5S : List Nat :=
  [7, 12, 17, 22, 7, 12, 17, 22, 7, 12, 17, 22, 7, 12, 17, 22,
   5, 9, 14, 20, 5, 9, 14, 20, 5, 9, 14, 20, 5, 9, 14, 20,
   4, 11, 16, 23, 4, 11, 16, 23, 4, 11, 16, 23, 4, 11, 16, 23,
   6, 10, 15, 21, 6, 10, 15, 21, 6, 10, 15, 21, 6, 10, 15, 21]

/-- 32-bit left rotation (`s < 32`, `x < 2^32`). -/
def rotl32 (x s : Nat) : Nat := x % 2 ^ (32 - s) * 2 ^ s + x / 2 ^ (32 - s)

/-- 32-bit complement of `x < 2^32`. -/
def bnot32 (x : Nat) : Nat := x ^^^ 4294967295

/-- The MD5 round function and message-word index for round `i`. -/
def md5FG (i b c d : Nat) : Nat × Nat :=
  if i < 16 then ((b &&& c) ||| (bnot32 b &&& d), i)
  else if i < 32 then ((d &&& b) ||| (bnot32 d &&& c), (5 * i + 1) % 16)
  else if i < 48 then (b ^^^ c ^^^ d, (3 * i + 5) % 16)
  else (c ^^^ (b ||| bnot32 d), (7 * i) % 16)

/-- The 16 little-endian 32-bit message words of one 64-byte chunk. -/
def md5Words (chunk : List Nat) : List Nat :=
  (List.range 16).map fun j =>
    leU32 (chunk.getD (4 * j) 0) (chunk.getD (4 * j + 1) 0)
      (chunk.getD (4 * j + 2) 0) (chunk.getD (4 * j + 3) 0)

/-- One MD5 round on the state `(a, b, c, d)`. -/
def md5Step (w : List Nat) (st : Nat × Nat × Nat × Nat) (i : Nat) :
    Nat × Nat × Nat × Nat :=
  let (a, b, c, d) := st
  let (f, g) := md5FG i b c d
  (d, (b + rotl32 ((a + f + md5K.getD i 0 + w.getD g 0) % 4294967296) (md5S.getD i 0)) % 4294967296,
   b, c)

/-- Process one 64-byte chunk: 64 rounds, then add into the running state
modulo `2^32`. -/
def md5Chunk (st : Nat × Nat × Nat × Nat) (chunk : List Nat) :
    Nat × Nat × Nat × Nat :=
  let w := md5Words chunk
  let (a, b, c, d) := (List.range 64).foldl (md5Step w) st
  ((st.1 + a) % 4294967296, (st.2.1 + b) % 4294967296,
   (st.2.2.1 + c) % 4294967296, (st.2.2.2 + d) % 4294967296)

/-- MD5 padding: `0x80`, zeros to 56 mod 64, then the bit length as a
little-endian 64-bit value. -/
def md5Pad (msg : List Nat) : List Nat :=
  msg ++ [128] ++ List.replicate ((119 - msg.length % 64) % 64) 0 ++
    (List.range 8).map fun j => 8 * msg.length % 2 ^ 64 / 256 ^ j % 256

/-- Split into 64-byte chunks (fuel-driven; `fuel ≥ l.length / 64 + 1`
suffices). -/
def chunksAux : Nat → List Nat → List (List Nat)
  | 0, _ => []
  | fuel + 1, l => if l.isEmpty then [] else l.take 64 :: chunksAux fuel (l.drop 64)

def chunks64 (l : List Nat) : List (List Nat) := chunksAux (l.length / 64 + 1) l

/-- Little-endian byte serialization of a 32-bit word. -/
def leBytes4 (x : Nat) : List Nat :=
  [x % 256, x / 256 % 256, x / 65536 % 256, x / 16777216 % 256]

/-- The 16-byte MD5 digest of a byte string. -/
def md5Digest (msg : List Nat) : List Nat :=
  let init : Nat × Nat × Nat × Nat := (1732584193, 4023233417, 2562383102, 271733878)
  let (a, b, c, d) := (chunks64 (md5Pad msg)).foldl md5Chunk init
  leBytes4 a ++ leBytes4 b ++ leBytes4 c ++ leBytes4 d

/-- Lowercase hexadecimal digit for `n < 16`. -/
def hexDigitL (n : Nat) : Char :=
  if n < 10 then Char.ofNat (48 + n) else Char.ofNat (87 + n)

/-- `hashlib.md5(msg).hexdigest()`: 32 lowercase hex characters. -/
def md5Hex (msg : List Nat) : String :=
  String.mk ((md5Digest msg).flatMap fun b => [hexDigitL (b / 16), hexDigitL (b % 16)])

/-- `md5_part = f"{md5_hash[:4]}{md5_hash[-4:]}".upper()`: the first 4
and last 4 hex characters, each uppercased. -/
def md5_part (msg : List Nat) : String :=
  let h := (md5Hex msg).data
  String.mk ((h.take 4 ++ h.drop (h.length - 4)).map Char.toUpper)

/-! ## Archive finalization control flow (steps 4–5)

After the scan, `multi_pass_rescue` writes the two uncompressed
intermediates (`.bin`, `.json`), then inside a `try` block writes the
ZIP archive and — still inside the `try` — removes the two
intermediates; the `except` handler prints a compression error and does
not remove anything.  `zipOk` abstracts whether the ZIP write raises. -/

structure ArchiveOutcome where
  binExists : Bool
  jsonExists : Bool
  zipCompleted : Bool
  compressionErrorReported : Bool
deriving DecidableEq, Repr

/-- The state of the output files after the try/except block, starting
from the state in which both intermediates have just been written. -/
def archiveFinalize (zipOk : Bool) : ArchiveOutcome :=
  if zipOk then
    { binExists := false, jsonExists := false
      zipCompleted := true, compressionErrorReported := false }
  else
    { binExists := true, jsonExists := true
      zipCompleted := false, compressionErrorReported := true }

/-! ## Example inputs (test fixtures for the theorems below) -/

/-- A source on which every read fails. -/
def exNoReads : Nat → Nat → Nat → Outcome := fun _ _ _ => none

/-- A source readable only on the second pass (pass index 1), returning
byte `171` everywhere. -/
def exSecondPassOnly : Nat → Nat → Nat → Outcome :=
  fun p _ _ => if p = 1 then some (fun _ => 171) else none

/-- A source readable only on the first pass (pass index 0), returning
byte `7` everywhere. -/
def exFirstPassOnly : Nat → Nat → Nat → Outcome :=
  fun p _ _ => if p = 0 then some (fun _ => 7) else none

/-- A single-pass result table in which the first 92 units succeeded and
the remaining 68 failed. -/
def exMixedResults : Nat → Nat → List Bool :=
  fun t h => if unitIdx t h < 92 then [true] else [false]

/-- A 512-byte boot sector whose label field holds `"A"` followed by ten
non-ASCII `0xFF` bytes. -/
def exBootNonAscii : List Nat :=
  List.replicate 43 0 ++ [65] ++ List.replicate 10 255 ++ List.replicate 458 0

/-! ## Scanner lemmas -/

theorem scanUnit_opsDone (o : Outcome) (t h : Nat) (st : ScanState) :
    (scanUnit o t h st).opsDone = st.opsDone + 1 := by
  cases o with
  | none => rfl
  | some d => simp only [scanUnit]; split <;> rfl

theorem scanUnit_divisors (o : Outcome) (t h : Nat) (st : ScanState) :
    (scanUnit o t h st).divisors = st.divisors ++ [st.opsDone + 1] := by
  cases o with
  | none => rfl
  | some d => simp only [scanUnit]; split <;> rfl

theorem scanUnit_results_ne (o : Outcome) (t h t' h' : Nat) (st : ScanState)
    (hne : ¬(t' = t ∧ h' = h)) :
    (scanUnit o t h st).results t' h' = st.results t' h' := by
  cases o with
  | none => simp [scanUnit, updRes, hne]
  | some d => simp only [scanUnit]; split <;> simp [updRes, hne]

theorem scanUnit_results_self (o : Outcome) (t h : Nat) (st : ScanState) :
    (scanUnit o t h st).results t h = st.results t h ++ [o.isSome] := by
  cases o with
  | none => simp [scanUnit, updRes]
  | some d => simp only [scanUnit]; split <;> simp [updRes]

theorem scanUnit_master_out (o : Outcome) (t h i : Nat) (st : ScanState)
    (hout : ¬(unitOffset t h ≤ i ∧ i < unitOffset t h + TRACK_SIZE)) :
    (scanUnit o t h st).master i = st.master i := by
  cases o with
  | none => rfl
  | some d =>
      simp only [scanUnit]
      split
      · simp [writeSlice, hout]
      · rfl

theorem scanUnit_master_some (d : Nat → Nat) (t h j : Nat) (st : ScanState)
    (hj : j < TRACK_SIZE) :
    (scanUnit (some d) t h st).master (unitOffset t h + j) =
      if (st.results t h).count true = 0 then d j
      else st.master (unitOffset t h + j) := by
  have hc : (st.results t h ++ [true]).count true = (st.results t h).count true + 1 := by
    simp
  simp only [scanUnit]
  split
  case isTrue h1 =>
    rw [hc] at h1
    have h0 : (st.results t h).count true = 0 := by omega
    simp [writeSlice, h0, hj]
  case isFalse h1 =>
    rw [hc] at h1
    have h0 : ¬ (st.results t h).count true = 0 := by omega
    simp [h0]

/-- Folding the scan step over a list of units not containing `(t0, h0)`
leaves that unit's result list unchanged. -/
theorem foldl_results_ne (outs : Nat → Nat → Outcome) (t0 h0 : Nat) :
    ∀ (L : List (Nat × Nat)) (st : ScanState), (t0, h0) ∉ L →
      ((L.foldl (fun st u => scanUnit (outs u.1 u.2) u.1 u.2 st) st).results t0 h0 =
        st.results t0 h0)
  | [], st, _ => rfl
  | u :: L, st, hmem => by
      have h1 : (t0, h0) ≠ u := by
        intro hcon; exact hmem (hcon ▸ List.mem_cons_self u L)
      have h2 : (t0, h0) ∉ L := fun hcon => hmem (List.mem_cons_of_mem u hcon)
      rw [List.foldl_cons, foldl_results_ne outs t0 h0 L _ h2,
        scanUnit_results_ne]
      intro ⟨het, heh⟩
      exact h1 (by cases u; simp_all)

/-- Folding the scan step over units whose ranges avoid index `i` leaves
`master i` unchanged. -/
theorem foldl_master_out (outs : Nat → Nat → Outcome) (i : Nat) :
    ∀ (L : List (Nat × Nat)) (st : ScanState),
      (∀ u ∈ L, ¬(unitOffset u.1 u.2 ≤ i ∧ i < unitOffset u.1 u.2 + TRACK_SIZE)) →
      ((L.foldl (fun st u => scanUnit (outs u.1 u.2) u.1 u.2 st) st).master i =
        st.master i)
  | [], st, _ => rfl
  | u :: L, st, hmem => by
      rw [List.foldl_cons,
        foldl_master_out outs i L _ (fun v hv => hmem v (List.mem_cons_of_mem u hv)),
        scanUnit_master_out _ _ _ _ _ (hmem u (List.mem_cons_self u L))]

/-- Folding the scan step appends one divisor per unit, numbering the
operations consecutively from `st.opsDone + 1`. -/
theorem foldl_divisors_ops (outs : Nat → Nat → Outcome) :
    ∀ (L : List (Nat × Nat)) (st : ScanState),
      ((L.foldl (fun st u => scanUnit (outs u.1 u.2) u.1 u.2 st) st).opsDone =
          st.opsDone + L.length) ∧
      ((L.foldl (fun st u => scanUnit (outs u.1 u.2) u.1 u.2 st) st).divisors =
          st.divisors ++ (List.range L.length).map fun k => st.opsDone + k + 1)
  | [], st => by simp
  | u :: L, st => by
      obtain ⟨ih1, ih2⟩ := foldl_divisors_ops outs L (scanUnit (outs u.1 u.2) u.1 u.2 st)
      rw [scanUnit_opsDone] at ih1 ih2
      rw [scanUnit_divisors] at ih2
      constructor
      · rw [List.foldl_cons, ih1]; simp only [List.length_cons]; omega
      · rw [List.foldl_cons, ih2, List.append_assoc]
        congr 1
        have hlen : List.range (u :: L).length = List.range (L.length + 1) := by simp
        rw [hlen, List.range_succ_eq_map, List.map_cons, List.map_map]
        simp only [List.singleton_append, List.cons.injEq]
        constructor
        · simp
        · apply List.map_congr_left
          intro a _
          simp only [Function.comp_apply, Nat.succ_eq_add_one]
          omega

theorem mem_unitsList (t h : Nat) : (t, h) ∈ unitsList ↔ t < TRACKS ∧ h < HEADS := by
  simp only [unitsList, List.mem_flatMap, List.mem_map, List.mem_range]
  constructor
  · rintro ⟨a, ha, b, hb, heq⟩
    injection heq with h1 h2
    subst h1; subst h2
    exact ⟨ha, hb⟩
  · rintro ⟨ht, hh⟩; exact ⟨t, ht, h, hh, rfl⟩

theorem nodup_unitsList : unitsList.Nodup := by
  rw [unitsList, List.nodup_flatMap]
  constructor
  · intro t _
    refine List.Nodup.map ?_ (List.nodup_range _)
    intro a b hab
    injection hab
  · have hpw : (List.range TRACKS).Pairwise (· ≠ ·) := List.nodup_range TRACKS
    apply hpw.imp
    intro a b hab
    intro x hx hx'
    simp only [List.mem_map, List.mem_range] at hx hx'
    obtain ⟨c, _, rfl⟩ := hx
    obtain ⟨c', _, h⟩ := hx'
    exact hab (congrArg Prod.fst h.symm)

/-- Every valid unit occurs exactly once in `unitsList`: split the list
around it. -/
theorem unitsList_split (t0 h0 : Nat) (ht : t0 < TRACKS) (hh : h0 < HEADS) :
    ∃ A B, unitsList = A ++ (t0, h0) :: B ∧ (t0, h0) ∉ A ∧ (t0, h0) ∉ B ∧
      (∀ u ∈ A, u ∈ unitsList) ∧ (∀ u ∈ B, u ∈ unitsList) := by
  have hmem : (t0, h0) ∈ unitsList := (mem_unitsList t0 h0).2 ⟨ht, hh⟩
  obtain ⟨A, B, hAB⟩ := List.append_of_mem hmem
  have hnd := nodup_unitsList
  rw [hAB, List.nodup_append] at hnd
  refine ⟨A, B, hAB, ?_, ?_, ?_, ?_⟩
  · intro hcon
    exact hnd.2.2 hcon (List.mem_cons_self _ _)
  · intro hcon
    exact (List.nodup_cons.1 hnd.2.1).1 hcon
  · intro u hu; rw [hAB]; exact List.mem_append_left _ hu
  · intro u hu; rw [hAB]
    exact List.mem_append_right _ (List.mem_cons_of_mem _ hu)

/-- Distinct valid units occupy disjoint byte ranges of the master image. -/
theorem disjointRanges (t h t' h' j : Nat) (ht : t < TRACKS) (hh : h < HEADS)
    (ht' : t' < TRACKS) (hh' : h' < HEADS) (hne : (t', h') ≠ (t, h))
    (hj : j < TRACK_SIZE) :
    ¬(unitOffset t' h' ≤ unitOffset t h + j ∧
      unitOffset t h + j < unitOffset t' h' + TRACK_SIZE) := by
  have hne' : ¬(t' = t ∧ h' = h) := by
    intro ⟨h1, h2⟩; exact hne (by rw [h1, h2])
  simp only [unitOffset, unitIdx, TRACK_SIZE, SECTORS_PER_TRACK, SECTOR_SIZE,
    HEADS, TRACKS] at *
  omega

/-- A full pass appends exactly one boolean — the unit's outcome — to a
valid unit's result list. -/
theorem runPass_results (outs : Nat → Nat → Outcome) (st : ScanState)
    (t0 h0 : Nat) (ht : t0 < TRACKS) (hh : h0 < HEADS) :
    (runPass outs st).results t0 h0 = st.results t0 h0 ++ [(outs t0 h0).isSome] := by
  obtain ⟨A, B, hAB, hA, hB, _, _⟩ := unitsList_split t0 h0 ht hh
  rw [runPass, hAB, List.foldl_append, List.foldl_cons]
  rw [foldl_results_ne outs t0 h0 B _ hB, scanUnit_results_self,
    foldl_results_ne outs t0 h0 A st hA]

/-- A full pass updates a valid unit's master-image bytes exactly when the
unit's read succeeded and it had no earlier success. -/
theorem runPass_master (outs : Nat → Nat → Outcome) (st : ScanState)
    (t0 h0 j : Nat) (ht : t0 < TRACKS) (hh : h0 < HEADS) (hj : j < TRACK_SIZE) :
    (runPass outs st).master (unitOffset t0 h0 + j) =
      match outs t0 h0 with
      | none => st.master (unitOffset t0 h0 + j)
      | some d =>
          if (st.results t0 h0).count true = 0 then d j
          else st.master (unitOffset t0 h0 + j) := by
  obtain ⟨A, B, hAB, hA, hB, hAmem, hBmem⟩ := unitsList_split t0 h0 ht hh
  have houtside : ∀ (C : List (Nat × Nat)), (∀ u ∈ C, u ∈ unitsList) →
      (t0, h0) ∉ C → ∀ u ∈ C,
      ¬(unitOffset u.1 u.2 ≤ unitOffset t0 h0 + j ∧
        unitOffset t0 h0 + j < unitOffset u.1 u.2 + TRACK_SIZE) := by
    intro C hCmem hC u hu
    obtain ⟨hu1, hu2⟩ := (mem_unitsList u.1 u.2).1 (by simpa using hCmem u hu)
    refine disjointRanges t0 h0 u.1 u.2 j ht hh hu1 hu2 ?_ hj
    intro heq
    injection heq with h1 h2
    subst h1; subst h2
    exact hC (by simpa using hu)
  rw [runPass, hAB, List.foldl_append, List.foldl_cons]
  rw [foldl_master_out outs _ B _ (houtside B hBmem hB)]
  have hAres := foldl_results_ne outs t0 h0 A st hA
  have hAmas := foldl_master_out outs (unitOffset t0 h0 + j) A st (houtside A hAmem hA)
  cases houts : outs t0 h0 with
  | none => exact hAmas
  | some d => rw [scanUnit_master_some d t0 h0 j _ hj, hAres, hAmas]

theorem firstRead_eq_none_iff (outs : Nat → Outcome) (n : Nat) :
    firstRead outs n = none ↔ ∀ p < n, outs p = none := by
  induction n with
  | zero => simp [firstRead]
  | succ n ih =>
      simp only [firstRead]
      cases hfr : firstRead outs n with
      | some d =>
          simp only []
          constructor
          · intro hcon; exact absurd hcon (by simp)
          · intro hall
            have : firstRead outs n = none := (ih).2 fun p hp => hall p (by omega)
            rw [hfr] at this; exact absurd this (by simp)
      | none =>
          simp only []
          constructor
          · intro hn p hp
            rcases Nat.lt_succ_iff_lt_or_eq.1 hp with h | rfl
            · exact (ih.1 hfr) p h
            · exact hn
          · intro hall; exact hall n (Nat.lt_succ_self n)

/-- After `n` passes, a valid unit's result list records, in pass order,
whether each pass's read succeeded. -/
theorem results_run (outcomes : Nat → Nat → Nat → Outcome) (n t h : Nat)
    (ht : t < TRACKS) (hh : h < HEADS) :
    (scanRun outcomes n).results t h =
      (List.range n).map fun p => (outcomes p t h).isSome := by
  induction n with
  | zero => rfl
  | succ n ih =>
      show (runPass (outcomes n) (scanRun outcomes n)).results t h = _
      rw [runPass_results (outcomes n) _ t h ht hh, ih, List.range_succ,
        List.map_append, List.map_singleton]

theorem count_true_results (outcomes : Nat → Nat → Nat → Outcome) (n t h : Nat)
    (ht : t < TRACKS) (hh : h < HEADS) :
    (((scanRun outcomes n).results t h).count true = 0 ↔
      ∀ p < n, outcomes p t h = none) := by
  rw [results_run outcomes n t h ht hh, List.count_eq_zero]
  simp only [List.mem_map, List.mem_range, not_exists, not_and]
  constructor
  · intro hx p hp
    have := hx p hp
    cases hout : outcomes p t h with
    | none => rfl
    | some d => exact absurd (by rw [hout]; rfl) (hx p hp)
  · intro hall p hp hcon
    rw [hall p hp] at hcon
    exact absurd hcon (by simp)

/-- After `n` passes, a valid unit's master-image bytes are the bytes of
its first successful read, or `0` if no pass succeeded. -/
theorem master_run (outcomes : Nat → Nat → Nat → Outcome) (n t h j : Nat)
    (ht : t < TRACKS) (hh : h < HEADS) (hj : j < TRACK_SIZE) :
    (scanRun outcomes n).master (unitOffset t h + j) =
      match firstRead (fun p => outcomes p t h) n with
      | some d => d j
      | none => 0 := by
  induction n with
  | zero => rfl
  | succ n ih =>
      show (runPass (outcomes n) (scanRun outcomes n)).master _ = _
      rw [runPass_master (outcomes n) _ t h j ht hh hj]
      cases houts : outcomes n t h with
      | none =>
          simp only [firstRead]
          cases hfr : firstRead (fun p => outcomes p t h) n with
          | some d => rw [ih, hfr]
          | none => rw [ih, hfr]; simp [houts]
      | some d =>
          simp only [firstRead]
          cases hfr : firstRead (fun p => outcomes p t h) n with
          | some d' =>
              have hcount : ¬ ((scanRun outcomes n).results t h).count true = 0 := by
                rw [count_true_results outcomes n t h ht hh]
                intro hall
                have : firstRead (fun p => outcomes p t h) n = none :=
                  (firstRead_eq_none_iff _ n).2 hall
                rw [hfr] at this; exact absurd this (by simp)
              rw [if_neg hcount, ih, hfr]
          | none =>
              have hcount : ((scanRun outcomes n).results t h).count true = 0 := by
                rw [count_true_results outcomes n t h ht hh]
                exact (firstRead_eq_none_iff _ n).1 hfr
              rw [if_pos hcount]
              simp [houts]

set_option maxRecDepth 2000 in
theorem unitsList_length : unitsList.length = TOTAL_TRACK_HEADS := by decide

/-- Over a whole run, the divisors used by the progress estimator are
exactly `1, 2, …, TOTAL_TRACK_HEADS * n` in order. -/
theorem scanRun_divisors (outcomes : Nat → Nat → Nat → Outcome) (n : Nat) :
    (scanRun outcomes n).opsDone = TOTAL_TRACK_HEADS * n ∧
    (scanRun outcomes n).divisors =
      (List.range (TOTAL_TRACK_HEADS * n)).map (· + 1) := by
  induction n with
  | zero => simp [scanRun, initState]
  | succ n ih =>
      obtain ⟨ih1, ih2⟩ := ih
      obtain ⟨hops, hdiv⟩ := foldl_divisors_ops (outcomes n) unitsList (scanRun outcomes n)
      rw [unitsList_length] at hops hdiv
      constructor
      · show (runPass (outcomes n) (scanRun outcomes n)).opsDone = _
        rw [runPass, hops, ih1, Nat.mul_succ]
      · show (runPass (outcomes n) (scanRun outcomes n)).divisors = _
        rw [runPass, hdiv, ih1, ih2, Nat.mul_succ, List.range_add, List.map_append,
          List.map_map]
        rfl

/-! ## Analysis lemmas -/

theorem analyzeStep_statusMap (npasses : Nat) (res : Nat → Nat → List Bool)
    (a : Analysis) (u : Nat × Nat) :
    (analyzeStep npasses res a u).statusMap =
      a.statusMap ++ [classify ((res u.1 u.2).count true) npasses] := by
  cases hcl : classify ((res u.1 u.2).count true) npasses <;>
    simp [analyzeStep, hcl]

theorem foldl_statusMap (npasses : Nat) (res : Nat → Nat → List Bool) :
    ∀ (L : List (Nat × Nat)) (a : Analysis),
      (L.foldl (analyzeStep npasses res) a).statusMap =
        a.statusMap ++ L.map fun u => classify ((res u.1 u.2).count true) npasses
  | [], a => by simp
  | u :: L, a => by
      rw [List.foldl_cons, foldl_statusMap npasses res L _, analyzeStep_statusMap,
        List.map_cons, List.append_assoc, List.singleton_append]

/-- The disk map produced by the analysis loop is the per-unit
classification in scan order. -/
theorem analyze_statusMap (res : Nat → Nat → List Bool) (npasses : Nat) :
    (analyze res npasses).statusMap =
      unitsList.map fun u => classify ((res u.1 u.2).count true) npasses := by
  rw [analyze, foldl_statusMap]; rfl

theorem foldl_unstableSpots_mono (npasses : Nat) (res : Nat → Nat → List Bool) :
    ∀ (L : List (Nat × Nat)) (a : Analysis) (x : String), x ∈ a.unstableSpots →
      x ∈ (L.foldl (analyzeStep npasses res) a).unstableSpots
  | [], _, _, hx => hx
  | u :: L, a, x, hx => by
      rw [List.foldl_cons]
      refine foldl_unstableSpots_mono npasses res L _ x ?_
      cases hcl : classify ((res u.1 u.2).count true) npasses with
      | stableOk => simpa [analyzeStep, hcl] using hx
      | stableBad => simpa [analyzeStep, hcl] using hx
      | unstable => simp [analyzeStep, hcl]; exact Or.inl hx

theorem foldl_unstableSpots_mem (npasses : Nat) (res : Nat → Nat → List Bool) :
    ∀ (L : List (Nat × Nat)) (a : Analysis) (t h : Nat), (t, h) ∈ L →
      classify ((res t h).count true) npasses = .unstable →
      unstableEntry t h ((res t h).count true) npasses ∈
        (L.foldl (analyzeStep npasses res) a).unstableSpots
  | [], _, _, _, hmem, _ => absurd hmem (List.not_mem_nil _)
  | u :: L, a, t, h, hmem, hcl => by
      rw [List.foldl_cons]
      rcases List.mem_cons.1 hmem with heq | hmem'
      · subst heq
        refine foldl_unstableSpots_mono npasses res L _ _ ?_
        simp [analyzeStep, hcl]
      · exact foldl_unstableSpots_mem npasses res L _ t h hmem' hcl

/-- A unit the classifier marks Unstable contributes its annotated entry
to the report's unstable-spot list. -/
theorem analyze_unstable_mem (res : Nat → Nat → List Bool) (npasses t h : Nat)
    (ht : t < TRACKS) (hh : h < HEADS)
    (hcl : classify ((res t h).count true) npasses = .unstable) :
    unstableEntry t h ((res t h).count true) npasses ∈
      (analyze res npasses).unstableSpots :=
  foldl_unstableSpots_mem npasses res unitsList _ t h
    ((mem_unitsList t h).2 ⟨ht, hh⟩) hcl

/-! ## Status counting -/

theorem salvaged_eq_ok_add_unstable (m : List Status) :
    salvagedCount m = m.count .stableOk + m.count .unstable := by
  induction m with
  | nil => rfl
  | cons s m ih =>
      cases s <;>
        simp [salvagedCount, List.countP_cons, List.count_cons, ih,
          salvagedCount] at * <;> omega

theorem salvaged_add_bad (m : List Status) :
    salvagedCount m + m.count .stableBad = m.length := by
  induction m with
  | nil => rfl
  | cons s m ih =>
      cases s <;>
        simp [salvagedCount, List.countP_cons, List.count_cons,
          salvagedCount] at * <;> omega

set_option maxRecDepth 8000 in
/-- The exact value of the floating-point health score for every
reachable salvaged count: it agrees with idealised rounding of
`100 * salvaged / 160` everywhere except `salvaged = 92`, where the
double-precision product is `57.49999999999999` and rounds down. -/
theorem health_core : ∀ s : Nat, s < 161 →
    (health_score s = if s = 92 then 57 else claimRound (100 * s) 160) ∧
    0 ≤ health_score s ∧ health_score s ≤ 100 := by decide

/-! ## String and hashing helper lemmas -/

theorem stripEnds_subset (p : Char → Bool) (l : List Char) :
    stripEnds p l ⊆ l := by
  intro x hx
  rw [stripEnds] at hx
  rw [List.mem_reverse] at hx
  have h1 := (List.dropWhile_sublist (l := (l.dropWhile p).reverse) p).subset hx
  rw [List.mem_reverse] at h1
  exact (List.dropWhile_sublist p).subset h1

theorem string_mk_ne_empty (l : List Char) (hl : l ≠ []) : String.mk l ≠ "" := by
  intro hcon
  rw [show ("" : String) = String.mk [] from rfl] at hcon
  exact hl (by injection hcon)

theorem hex8_length (n : Nat) : (hex8 n).length = 8 := by
  simp [hex8, String.length]

theorem md5Digest_length (msg : List Nat) : (md5Digest msg).length = 16 := by
  rw [md5Digest]
  rcases (chunks64 (md5Pad msg)).foldl md5Chunk
      (1732584193, 4023233417, 2562383102, 271733878) with ⟨A, B, C, D⟩
  simp [leBytes4]

theorem flatMap_pair_length (f g : Nat → Char) (l : List Nat) :
    (l.flatMap fun b => [f b, g b]).length = 2 * l.length := by
  induction l with
  | nil => rfl
  | cons b l ih => simp [List.flatMap_cons, ih]; omega

theorem md5Hex_length (msg : List Nat) : (md5Hex msg).length = 32 := by
  show ((md5Digest msg).flatMap fun b => [hexDigitL (b / 16), hexDigitL (b % 16)]).length = 32
  rw [flatMap_pair_length, md5Digest_length]

/-! ## Claim theorems -/

/-- **C1.** For every unit `(t, h)` with `t < 80`, `h < 2` and every
family of per-pass read outcomes, after the scan completes the master
image bytes at the unit's offset (`(t*2 + h) * 9216`, length `9216`)
equal the data of the unit's first successful read across all passes —
never overwritten by a later pass — and are `0` if no pass succeeded. -/
theorem master_image_first_success_wins
    (outcomes : Nat → Nat → Nat → Outcome) (n t h i : Nat)
    (ht : t < TRACKS) (hh : h < HEADS) (hi : i < TRACK_SIZE) :
    (scanRun outcomes n).master (unitOffset t h + i) =
      match firstRead (fun p => outcomes p t h) n with
      | some d => d i
      | none => 0 :=
  master_run outcomes n t h i ht hh hi

theorem master_image_first_success_wins_witness :
    (0 < TRACKS ∧ 0 < HEADS ∧ 0 < TRACK_SIZE) ∧
    (scanRun exSecondPassOnly 3).master (unitOffset 0 0 + 0) =
      match firstRead (fun p => exSecondPassOnly p 0 0) 3 with
      | some d => d 0
      | none => 0 :=
  ⟨⟨by decide, by decide, by decide⟩,
   master_image_first_success_wins exSecondPassOnly 3 0 0 0
     (by decide) (by decide) (by decide)⟩

/-- **C6.** A short read or I/O exception on a unit appends `false` to
that unit's result sequence and the scan continues: after a complete run
of `n` passes, every valid unit's result sequence records one boolean
per pass, in pass order, and has length exactly `n`. -/
theorem failed_reads_recorded_scan_continues
    (outcomes : Nat → Nat → Nat → Outcome) (n t h : Nat)
    (ht : t < TRACKS) (hh : h < HEADS) :
    (scanRun outcomes n).results t h =
      ((List.range n).map fun p => (outcomes p t h).isSome) ∧
    ((scanRun outcomes n).results t h).length = n := by
  refine ⟨results_run outcomes n t h ht hh, ?_⟩
  rw [results_run outcomes n t h ht hh]
  simp

theorem failed_reads_recorded_scan_continues_witness :
    (5 < TRACKS ∧ 1 < HEADS) ∧
    ((scanRun exSecondPassOnly 2).results 5 1 =
      ((List.range 2).map fun p => (exSecondPassOnly p 5 1).isSome) ∧
    ((scanRun exSecondPassOnly 2).results 5 1).length = 2) :=
  ⟨⟨by decide, by decide⟩,
   failed_reads_recorded_scan_continues exSecondPassOnly 2 5 1 (by decide) (by decide)⟩

/-- **C9.** The progress estimator never divides by zero: at every
per-unit progress update the operations-completed counter has already
been incremented, so across a run of `n ≥ 1` passes the divisors used by
`avg_time_per_op = elapsed / ops_done` are exactly `1, 2, …, 160 * n`,
all strictly positive. -/
theorem progress_divisor_positive (outcomes : Nat → Nat → Nat → Outcome)
    (n : Nat) (hn : 1 ≤ n) :
    (scanRun outcomes n).divisors =
      ((List.range (TOTAL_TRACK_HEADS * n)).map (· + 1)) ∧
    (scanRun outcomes n).divisors.all (fun d => decide (0 < d)) = true := by
  obtain ⟨-, hdiv⟩ := scanRun_divisors outcomes n
  refine ⟨hdiv, ?_⟩
  rw [hdiv, List.all_eq_true]
  intro x hx
  simp only [List.mem_map, List.mem_range] at hx
  obtain ⟨k, -, rfl⟩ := hx
  simp

theorem progress_divisor_positive_witness :
    1 ≤ 1 ∧
    ((scanRun exNoReads 1).divisors =
      ((List.range (TOTAL_TRACK_HEADS * 1)).map (· + 1)) ∧
    (scanRun exNoReads 1).divisors.all (fun d => decide (0 < d)) = true) :=
  ⟨by decide, progress_divisor_positive exNoReads 1 (by decide)⟩

set_option maxRecDepth 8000 in
/-- **C10.** With `passes = 0` the scan performs no reads: every unit's
result sequence is empty, every unit is classified Stable-Good (the
`successes == PASSES` branch fires first, with `0 == 0`), the health
score is 100, and the master image is entirely zero-filled. -/
theorem zero_passes_all_stable_good (outcomes : Nat → Nat → Nat → Outcome) :
    (scanRun outcomes 0).opsDone = 0 ∧
    (∀ t h, (scanRun outcomes 0).results t h = []) ∧
    (analyze (scanRun outcomes 0).results 0).statusMap =
      List.replicate TOTAL_TRACK_HEADS Status.stableOk ∧
    health_score (salvagedCount (analyze (scanRun outcomes 0).results 0).statusMap) = 100 ∧
    (∀ i, (scanRun outcomes 0).master i = 0) := by
  have hmap : (analyze (scanRun outcomes 0).results 0).statusMap =
      List.replicate TOTAL_TRACK_HEADS Status.stableOk := by
    rw [analyze_statusMap, List.eq_replicate_iff]
    constructor
    · rw [List.length_map, unitsList_length]
    · intro b hb
      rw [List.mem_map] at hb
      obtain ⟨u, -, rfl⟩ := hb
      rfl
  refine ⟨rfl, fun t h => rfl, hmap, ?_, fun i => rfl⟩
  rw [hmap]
  decide

/-- **C2 counterexample.** The claim's biconditional
"Stable-Bad ⟺ success count = 0" fails when `passCount = 0`: with zero
passes a unit has success count `0` yet is classified Stable-Good,
because the `successes == PASSES` branch is tested first. -/
theorem classification_stableBad_iff_fails_at_zero_passes :
    ((scanRun exNoReads 0).results 0 0).count true = 0 ∧
    classify (((scanRun exNoReads 0).results 0 0).count true) 0 = Status.stableOk ∧
    Status.stableOk ≠ Status.stableBad := by decide

/-- **C2 (amended: for `passCount ≥ 1`).** After a complete run, every
valid unit's classification is exactly one of Stable-Good, Stable-Bad,
Unstable; it is Stable-Good iff the unit's success count equals the pass
count, Stable-Bad iff the success count is 0, and an Unstable unit's
annotated entry `"T:tt H:h (successes/passes)"` appears in the report's
unstable-spot list. -/
theorem classification_trichotomy (outcomes : Nat → Nat → Nat → Outcome)
    (n t h : Nat) (hn : 1 ≤ n) (ht : t < TRACKS) (hh : h < HEADS) :
    (classify (((scanRun outcomes n).results t h).count true) n = Status.stableOk ∨
     classify (((scanRun outcomes n).results t h).count true) n = Status.stableBad ∨
     classify (((scanRun outcomes n).results t h).count true) n = Status.unstable) ∧
    (classify (((scanRun outcomes n).results t h).count true) n = Status.stableOk ↔
      ((scanRun outcomes n).results t h).count true = n) ∧
    (classify (((scanRun outcomes n).results t h).count true) n = Status.stableBad ↔
      ((scanRun outcomes n).results t h).count true = 0) ∧
    (classify (((scanRun outcomes n).results t h).count true) n = Status.unstable →
      unstableEntry t h (((scanRun outcomes n).results t h).count true) n ∈
        (analyze (scanRun outcomes n).results n).unstableSpots) := by
  refine ⟨?_, ?_, ?_, ?_⟩
  · unfold classify; split_ifs <;> simp
  · unfold classify
    split_ifs with h1 h2
    · simp [h1]
    · simp [h1]
    · simp [h1]
  · unfold classify
    split_ifs with h1 h2
    · simp [h1]; omega
    · simp [h2]
    · simp [h2]
  · intro hcl
    exact analyze_unstable_mem (scanRun outcomes n).results n t h ht hh hcl

set_option maxRecDepth 8000 in
theorem classification_trichotomy_witness :
    (1 ≤ 2 ∧ 0 < TRACKS ∧ 0 < HEADS) ∧
    unstableEntry 0 0 (((scanRun exFirstPassOnly 2).results 0 0).count true) 2 ∈
      (analyze (scanRun exFirstPassOnly 2).results 2).unstableSpots :=
  ⟨⟨by decide, by decide, by decide⟩,
   (classification_trichotomy exFirstPassOnly 2 0 0
     (by decide) (by decide) (by decide)).2.2.2 (by decide)⟩

set_option maxRecDepth 8000 in
/-- **C3 counterexample.** With 92 salvaged units (68 Stable-Bad) the
program's floating-point computation yields a health score of 57,
whereas the claimed formula `round(100 * (160 - 68) / 160)` rounds the
exact value `57.5` to `58` — under round-half-to-even (Python's `round`)
and under round-half-up alike. -/
theorem health_score_formula_counterexample :
    (analyze exMixedResults 1).statusMap.count Status.stableBad = 68 ∧
    salvagedCount (analyze exMixedResults 1).statusMap = 92 ∧
    health_score (salvagedCount (analyze exMixedResults 1).statusMap) = 57 ∧
    claimRound (100 * (TOTAL_TRACK_HEADS - 68)) TOTAL_TRACK_HEADS = 58 ∧
    (100 * 92 + TOTAL_TRACK_HEADS / 2) / TOTAL_TRACK_HEADS = 58 ∧
    (57 : Int) ≠ 58 := by decide

set_option maxRecDepth 8000 in
/-- **C3 (amended).** For every classification outcome over the 160
units, the health score is the rounding of
`100 * (160 - stableBadCount) / 160` — computed with the tracks×heads
product — **except** at `stableBadCount = 68` (salvaged = 92), where
double-precision evaluation yields `57` instead of `round(57.5) = 58`;
it is always an integer in `[0, 100]`, it is `100` when no unit is
Stable-Bad and `0` when all 160 are, and Unstable units count toward the
salvaged (numerator) side. -/
theorem health_score_properties (res : Nat → Nat → List Bool) (npasses : Nat) :
    (health_score (salvagedCount (analyze res npasses).statusMap) =
      if (analyze res npasses).statusMap.count Status.stableBad = 68 then 57
      else claimRound
        (100 * (TOTAL_TRACK_HEADS - (analyze res npasses).statusMap.count Status.stableBad))
        TOTAL_TRACK_HEADS) ∧
    0 ≤ health_score (salvagedCount (analyze res npasses).statusMap) ∧
    health_score (salvagedCount (analyze res npasses).statusMap) ≤ 100 ∧
    salvagedCount (analyze res npasses).statusMap =
      (analyze res npasses).statusMap.count Status.stableOk +
        (analyze res npasses).statusMap.count Status.unstable ∧
    ((analyze res npasses).statusMap.count Status.stableBad = 0 →
      health_score (salvagedCount (analyze res npasses).statusMap) = 100) ∧
    ((analyze res npasses).statusMap.count Status.stableBad = TOTAL_TRACK_HEADS →
      health_score (salvagedCount (analyze res npasses).statusMap) = 0) := by
  have h160 : TOTAL_TRACK_HEADS = 160 := rfl
  have hlen : (analyze res npasses).statusMap.length = 160 := by
    rw [analyze_statusMap, List.length_map, unitsList_length]
    rfl
  have hsum := salvaged_add_bad (analyze res npasses).statusMap
  rw [hlen] at hsum
  obtain ⟨h1, h2, h3⟩ :=
    health_core (salvagedCount (analyze res npasses).statusMap) (by omega)
  refine ⟨?_, h2, h3, salvaged_eq_ok_add_unstable _, ?_, ?_⟩
  · by_cases hbad : (analyze res npasses).statusMap.count Status.stableBad = 68
    · rw [if_pos hbad, h1, if_pos (by omega)]
    · rw [if_neg hbad, h1, if_neg (by omega), h160]
      have harg : 100 * salvagedCount (analyze res npasses).statusMap =
          100 * (160 - (analyze res npasses).statusMap.count Status.stableBad) := by
        omega
      rw [harg]
  · intro hbad
    have hsal : salvagedCount (analyze res npasses).statusMap = 160 := by omega
    rw [hsal]
    decide
  · intro hbad
    rw [h160] at hbad
    have hsal : salvagedCount (analyze res npasses).statusMap = 0 := by omega
    rw [hsal]
    decide

theorem health_score_properties_witness :
    0 ≤ health_score (salvagedCount (analyze exMixedResults 1).statusMap) ∧
    health_score (salvagedCount (analyze exMixedResults 1).statusMap) ≤ 100 :=
  ⟨(health_score_properties exMixedResults 1).2.1,
   (health_score_properties exMixedResults 1).2.2.1⟩

/-- **C4 counterexample.** Python's `str.isalnum` is Unicode-aware, so
the sanitized comment for input `"é"` is `"é"` itself — a character
outside `[A-Za-z0-9_-]` (`Char.isAlphanum` is the ASCII class). -/
theorem sanitize_comment_ascii_counterexample :
    sanitizeComment (some "é") = "é" ∧
    'é' ∈ (sanitizeComment (some "é")).data ∧
    ¬('é'.isAlphanum = true ∨ 'é' = '-' ∨ 'é' = '_') := by decide

/-- **C4 (amended: Unicode alphanumerics are kept, not only ASCII).**
For every input (including `none`, empty, whitespace-only and arbitrary
Unicode), every character of the sanitized comment is a Python-alphanumeric
character, `'-'` or `'_'`; the result is never empty (falling back to
`"NOCOMM"`) and never exceeds 32 characters. -/
theorem sanitize_comment_properties (c : Option String) :
    (∀ ch ∈ (sanitizeComment c).data, pyIsAlnum ch = true ∨ ch = '-' ∨ ch = '_') ∧
    sanitizeComment c ≠ "" ∧
    (sanitizeComment c).length ≤ 32 := by
  have hnocomm : ∀ ch ∈ ("NOCOMM" : String).data,
      pyIsAlnum ch = true ∨ ch = '-' ∨ ch = '_' := by decide
  simp only [sanitizeComment]
  by_cases h0 : pyStrip (c.getD "") = ""
  · rw [if_pos h0]
    exact ⟨hnocomm, by decide, by decide⟩
  · rw [if_neg h0]
    refine ⟨?_, ?_, ?_⟩
    · intro ch hch
      have hch' : ch ∈ (if (stripEnds (fun ch => ch = '_')
          ((pyStrip (c.getD "")).data.map fun ch =>
            if pyIsAlnum ch || ch = '-' || ch = '_' then ch else '_')).isEmpty
          then ("NOCOMM" : String).data
          else stripEnds (fun ch => ch = '_')
            ((pyStrip (c.getD "")).data.map fun ch =>
              if pyIsAlnum ch || ch = '-' || ch = '_' then ch else '_')) :=
        List.take_subset 32 _ hch
      by_cases hE : (stripEnds (fun ch => ch = '_')
          ((pyStrip (c.getD "")).data.map fun ch =>
            if pyIsAlnum ch || ch = '-' || ch = '_' then ch else '_')).isEmpty
      · rw [if_pos hE] at hch'
        exact hnocomm ch hch'
      · rw [if_neg hE] at hch'
        have h2 := stripEnds_subset (fun ch => ch = '_') _ hch'
        obtain ⟨x, hx, rfl⟩ := List.mem_map.1 h2
        by_cases hk : pyIsAlnum x || x = '-' || x = '_'
        · rw [if_pos hk]
          simp only [Bool.or_eq_true, decide_eq_true_eq] at hk
          tauto
        · rw [if_neg hk]
          right; right; rfl
    · apply string_mk_ne_empty
      intro hcon
      rcases List.take_eq_nil_iff.1 hcon with h32 | hnil
      · exact absurd h32 (by decide)
      · by_cases hE : (stripEnds (fun ch => ch = '_')
            ((pyStrip (c.getD "")).data.map fun ch =>
              if pyIsAlnum ch || ch = '-' || ch = '_' then ch else '_')).isEmpty
        · rw [if_pos hE] at hnil
          exact absurd hnil (by decide)
        · rw [if_neg hE] at hnil
          rw [List.isEmpty_iff] at hE
          exact hE hnil
    · show (String.mk _).length ≤ 32
      show (List.take 32 _).length ≤ 32
      rw [List.length_take]
      omega

theorem sanitize_comment_properties_witness :
    (∀ ch ∈ (sanitizeComment (some "  hello world!  ")).data,
      pyIsAlnum ch = true ∨ ch = '-' ∨ ch = '_') ∧
    sanitizeComment (some "  hello world!  ") ≠ "" ∧
    (sanitizeComment (some "  hello world!  ")).length ≤ 32 :=
  sanitize_comment_properties (some "  hello world!  ")

set_option maxRecDepth 8000 in
/-- **C5 counterexample.** Non-ASCII label bytes do not degrade the label
to its default: with the 11-byte label field `"A"` followed by ten `0xFF`
bytes, `decode('ascii', errors='ignore')` silently *drops* the non-ASCII
bytes and the label becomes `"A"`, not `"NO_LABEL"`. -/
theorem boot_label_nonascii_counterexample :
    exBootNonAscii.length = 512 ∧
    (255 : Nat) ∈ (exBootNonAscii.drop 43).take 11 ∧
    ¬(255 : Nat) < 128 ∧
    (bootMetadata exBootNonAscii).2 = "A" ∧
    "A" ≠ "NO_LABEL" := by decide

/-- **C5 (amended: non-ASCII label bytes are silently dropped, not
defaulted).** A read of fewer (or more) than 512 boot bytes leaves both
fields at their defaults with no failure; exactly 512 bytes set the
serial to the little-endian 32-bit integer at offset 39 rendered as 8
hex digits, and set the label to the whitespace-trimmed ASCII decode
(non-ASCII bytes ignored) of the 11 bytes at offset 43, keeping the
default when that is empty; no path aborts. -/
theorem boot_metadata_properties (boot : List Nat) :
    (boot.length ≠ 512 → bootMetadata boot = ("UNKNOWN", "NO_LABEL")) ∧
    (boot.length = 512 →
      (bootMetadata boot).1 =
        hex8 (leU32 (boot.getD 39 0) (boot.getD 40 0) (boot.getD 41 0) (boot.getD 42 0)) ∧
      ((bootMetadata boot).1).length = 8 ∧
      (bootMetadata boot).2 =
        (if String.mk (stripEnds pyIsSpace (decodeAsciiIgnore ((boot.drop 43).take 11))) = ""
         then "NO_LABEL"
         else String.mk (stripEnds pyIsSpace (decodeAsciiIgnore ((boot.drop 43).take 11))))) := by
  constructor
  · intro hne
    simp only [bootMetadata]
    rw [if_neg hne]
  · intro heq
    simp only [bootMetadata]
    rw [if_pos heq]
    exact ⟨rfl, hex8_length _, rfl⟩

set_option maxRecDepth 8000 in
theorem boot_metadata_properties_witness :
    exBootNonAscii.length = 512 ∧
    ((bootMetadata exBootNonAscii).1 =
      hex8 (leU32 (exBootNonAscii.getD 39 0) (exBootNonAscii.getD 40 0)
        (exBootNonAscii.getD 41 0) (exBootNonAscii.getD 42 0)) ∧
    ((bootMetadata exBootNonAscii).1).length = 8 ∧
    (bootMetadata exBootNonAscii).2 =
      (if String.mk (stripEnds pyIsSpace
          (decodeAsciiIgnore ((exBootNonAscii.drop 43).take 11))) = ""
       then "NO_LABEL"
       else String.mk (stripEnds pyIsSpace
          (decodeAsciiIgnore ((exBootNonAscii.drop 43).take 11))))) :=
  ⟨by decide, (boot_metadata_properties exBootNonAscii).2 (by decide)⟩

/-- **C7.** The two uncompressed intermediates (`.bin`, `.json`) are
removed only after the ZIP archive write succeeds; if compression raises,
both intermediates remain on disk and the failure is reported (the
`except` handler prints the compression error), not silently swallowed. -/
theorem intermediates_deleted_only_on_success :
    ((archiveFinalize false).binExists = true ∧
     (archiveFinalize false).jsonExists = true ∧
     (archiveFinalize false).compressionErrorReported = true) ∧
    ((archiveFinalize true).binExists = false ∧
     (archiveFinalize true).jsonExists = false ∧
     (archiveFinalize true).zipCompleted = true ∧
     (archiveFinalize true).compressionErrorReported = false) := by decide

/-- **C8.** The archive fingerprint is a deterministic function of the
master-image bytes: byte-identical buffers yield the identical
fingerprint, which is exactly 8 characters, built by concatenating the
first 4 and last 4 characters of the 32-character MD5 hex digest,
uppercased. -/
theorem fingerprint_deterministic (a b : List Nat) (hab : a = b) :
    md5_part a = md5_part b ∧
    (md5_part a).length = 8 ∧
    (md5Hex a).length = 32 ∧
    md5_part a =
      String.mk ((((md5Hex a).data.take 4) ++
        ((md5Hex a).data.drop ((md5Hex a).data.length - 4))).map Char.toUpper) := by
  subst hab
  refine ⟨rfl, ?_, md5Hex_length a, rfl⟩
  have h32 : (md5Hex a).data.length = 32 := md5Hex_length a
  show ((((md5Hex a).data.take 4) ++
    ((md5Hex a).data.drop ((md5Hex a).data.length - 4))).map Char.toUpper).length = 8
  rw [List.length_map, List.length_append, List.length_take, List.length_drop, h32]
  decide

theorem fingerprint_deterministic_witness :
    (([] : List Nat) = []) ∧
    (md5_part [] = md5_part [] ∧
    (md5_part []).length = 8 ∧
    (md5Hex []).length = 32 ∧
    md5_part [] =
      String.mk ((((md5Hex []).data.take 4) ++
        ((md5Hex []).data.drop ((md5Hex []).data.length - 4))).map Char.toUpper)) :=
  ⟨rfl, fingerprint_deterministic [] [] rfl⟩

/-- Validation of the MD5 embedding against RFC 1321 test vectors. -/
theorem md5Hex_empty_vector : md5Hex [] = "d41d8cd98f00b204e9800998ecf8427e" := by decide

theorem md5Hex_abc_vector : md5Hex [97, 98, 99] = "900150983cd24fb0d6963f7d28e17f72" := by decide

end CheckFlp
